import Mathlib

/-!
Verification of the web-gallery client's core logic against its specification.

The TypeScript source is shallowly embedded:
* JS strings are modelled as `String`/`List Char`, JS numbers as `ℚ` (for the
  sizing policy, where fractional device-pixel ratios occur) or `Nat`
  (identifiers, pixel counts, page indices).
* ISO date strings that the code only ever passes through `new Date(...)
  .getTime()` are modelled by their epoch timestamp (a `Nat`).
* `async` functions with failure (`throw`) become functions into `Except
  String _`; the remote Firestore documents become explicit state records.
-/

namespace WebGallery

/-- Aspect-ratio class of a photo, from `types.ts`
(`aspectRatio: 'landscape' | 'portrait' | 'square'`). -/
inductive Aspect where
  | landscape
  | portrait
  | square
deriving DecidableEq, Repr

/-- The `Photo` record from `src/app/types.ts`.  Optional TS fields are `Option`s;
date strings (`date`, `takenAt`) are modelled by the epoch timestamp that
`new Date(s).getTime()` would yield. -/
structure Photo where
  id : String
  url : String
  date : Nat
  title : String
  albumId : String
  location : Option String := none
  takenAt : Option Nat := none
  cameraMake : Option String := none
  cameraModel : Option String := none
  fNumber : Option ℚ := none
  exposureTime : Option ℚ := none
  iso : Option Nat := none
  gps : Option (ℚ × ℚ) := none
  locationName : Option String := none
  width : Option Nat := none
  height : Option Nat := none
  aspectRatio : Aspect
deriving DecidableEq, Repr

/-- The `Album` record from `src/app/types.ts`; `createdAt` is an ISO string,
modelled as an epoch timestamp. -/
structure Album where
  id : String
  name : String
  description : String
  theme : String
  createdAt : Nat
deriving DecidableEq, Repr

/-! ## Responsive sizing policy — `src/app/config/imageConfig.ts` -/

/-- Constant `VIEWER_CONFIG.BREAKPOINTS` (`imageConfig.ts`, line 12). -/
def BREAKPOINTS : List ℚ := [800, 1200, 1600, 2000, 2400]

/-- Constant `VIEWER_CONFIG.MAX_WIDTH_LANDSCAPE`. -/
def MAX_WIDTH_LANDSCAPE : ℚ := 2400

/-- Constant `VIEWER_CONFIG.MAX_WIDTH_PORTRAIT`. -/
def MAX_WIDTH_PORTRAIT : ℚ := 1800

/-- Constant `VIEWER_CONFIG.MIN_WIDTH`. -/
def MIN_WIDTH : ℚ := 800

/-- Value `BREAKPOINTS[BREAKPOINTS.length - 1]`, the value the source falls back to
via `|| ...` when `Array.prototype.find` returns `undefined` (every breakpoint
is a nonzero, hence truthy, number). -/
def LAST_BREAKPOINT : ℚ := 2400

/-- Function `calculateOptimalImageWidth` from `imageConfig.ts` lines 22–41.
`pixelRatio || 1` is JS falsiness on a number: `0` is replaced by `1`. -/
def calculateOptimalImageWidth (screenWidth pixelRatio : ℚ) (aspectRatio : Aspect) : ℚ :=
  let effectivePixelRatio := min (if pixelRatio = 0 then 1 else pixelRatio) 2
  let targetWidth := screenWidth * effectivePixelRatio
  let optimal := (BREAKPOINTS.find? (fun bp => decide (targetWidth ≤ bp))).getD LAST_BREAKPOINT
  let maxWidth := if aspectRatio = Aspect.portrait then MAX_WIDTH_PORTRAIT else MAX_WIDTH_LANDSCAPE
  max (min optimal maxWidth) MIN_WIDTH

/-- Reference computation of claim C8, following the spec's words literally:
clamp the pixel ratio to at most 2 (no zero-default), take the smallest ladder
value `≥ target` (else the ladder's largest value 2400), clamp above by the
aspect ceiling and below by the floor 800. -/
def specOptimalWidth (screenWidth pixelRatio : ℚ) (aspectRatio : Aspect) : ℚ :=
  let clampedRatio := min pixelRatio 2
  let target := screenWidth * clampedRatio
  let pick := ((BREAKPOINTS.filter (fun bp => decide (target ≤ bp))).min?).getD LAST_BREAKPOINT
  let ceiling := if aspectRatio = Aspect.portrait then MAX_WIDTH_PORTRAIT else MAX_WIDTH_LANDSCAPE
  max (min pick ceiling) MIN_WIDTH

/-- Reference computation of C8 amended: identical to `specOptimalWidth`
except that, matching the source's `pixelRatio || 1`, a zero pixel ratio
defaults to 1 before the clamp. -/
def specOptimalWidthAmended (screenWidth pixelRatio : ℚ) (aspectRatio : Aspect) : ℚ :=
  let clampedRatio := min (if pixelRatio = 0 then 1 else pixelRatio) 2
  let target := screenWidth * clampedRatio
  let pick := ((BREAKPOINTS.filter (fun bp => decide (target ≤ bp))).min?).getD LAST_BREAKPOINT
  let ceiling := if aspectRatio = Aspect.portrait then MAX_WIDTH_PORTRAIT else MAX_WIDTH_LANDSCAPE
  max (min pick ceiling) MIN_WIDTH

/-- The breakpoint snap of `calculateOptimalImageWidth`, as a function of the
target width. -/
def snapToLadder (target : ℚ) : ℚ :=
  (BREAKPOINTS.find? (fun bp => decide (target ≤ bp))).getD LAST_BREAKPOINT

/-- The source's effective pixel ratio `Math.min(pixelRatio || 1, 2)`. -/
def effectiveRatio (pr : ℚ) : ℚ := min (if pr = 0 then 1 else pr) 2

/-! ## Gallery grid — `src/app/components/Gallery.tsx` -/

/-- Constant `ITEMS_PER_PAGE` (`Gallery.tsx`, line 15). -/
def ITEMS_PER_PAGE : Nat := 20

/-- Page count `Math.ceil(filteredPhotos.length / ITEMS_PER_PAGE)` (`Gallery.tsx`, line 82);
ceiling division on naturals. -/
def totalPages (filteredPhotos : List Photo) : Nat :=
  (filteredPhotos.length + ITEMS_PER_PAGE - 1) / ITEMS_PER_PAGE

/-- Slice `paginatedPhotos` (`Gallery.tsx`, lines 84–87):
`filteredPhotos.slice(startIndex, startIndex + ITEMS_PER_PAGE)` with
`startIndex = (currentPage - 1) * ITEMS_PER_PAGE`. -/
def paginatedPhotos (filteredPhotos : List Photo) (currentPage : Nat) : List Photo :=
  (filteredPhotos.drop ((currentPage - 1) * ITEMS_PER_PAGE)).take ITEMS_PER_PAGE

/-- Column span of a photo in the six-column grid (`Gallery.tsx`, lines 68–69):
`aspectRatio === 'landscape' ? 2 : 1`. -/
def span (p : Photo) : Nat := if p.aspectRatio = Aspect.landscape then 2 else 1

/-- Functional form of the layout-optimization loop (`Gallery.tsx`, lines
60–79).  The loop walks index `i` with a running column counter; a swap at `i`
only rewrites positions `i` and `i+1`, and position `i` is final once step `i`
has run, so the loop is exactly this recursion: at each step the head pair is
examined with the current column counter, the (possibly swapped) head is
emitted, and the counter advances by the emitted photo's span. -/
def balanceAux (col : Nat) : List Photo → List Photo
  | [] => []
  | [p] => [p]
  | p₁ :: p₂ :: rest =>
    if col % 6 = 4 ∧ span p₁ = 1 ∧ span p₂ = 2 then
      p₂ :: balanceAux (col + 2) (p₁ :: rest)
    else
      p₁ :: balanceAux (col + span p₁) (p₂ :: rest)
termination_by l => l.length

/-- The layout balancer applied to a photo sequence, starting at column 0
(`Gallery.tsx`, lines 61–62: `col = 0`). -/
def layoutOptimize (l : List Photo) : List Photo := balanceAux 0 l

/-- A placeholder photo used to instantiate list-valued witnesses. -/
def mkPhoto (n : Nat) : Photo :=
  { id := toString n, url := "u", date := n, title := "t", albumId := "",
    aspectRatio := Aspect.portrait }

/-! ## Photo upload — `src/app/hooks/useGallery.ts` -/

/-- The `Photo` record built by `processAndUploadSinglePhoto`
(`useGallery.ts`, lines 186–197) as a function of the generated id, the upload
URL and date, the user-supplied title/album and the decoded pixel dimensions;
`aspectRatio: image.width > image.height ? 'landscape' : 'portrait'`.  The
optional EXIF spread only adds metadata fields and is not inspected by any
claim, so it is elided here. -/
def buildUploadedPhoto (id url : String) (date : Nat) (title albumId : String)
    (w h : Nat) : Photo :=
  { id := id, url := url, date := date, title := title, albumId := albumId,
    width := some w, height := some h,
    aspectRatio := if h < w then Aspect.landscape else Aspect.portrait }

/-- Type `Partial<Album>` as passed to album updates (`useGallery.ts`, line 102):
the optional fields an edit may carry. -/
structure AlbumDetails where
  name : Option String := none
  description : Option String := none
  theme : Option String := none
deriving DecidableEq, Repr

/-- The JS object spread `{ ...album, ...details }`. -/
def applyDetails (a : Album) (d : AlbumDetails) : Album :=
  { a with name := d.name.getD a.name,
           description := d.description.getD a.description,
           theme := d.theme.getD a.theme }

/-! ## Remote document gateway, chunked layout — `src/app/services/firebase.ts`
(the variant with `photo_chunks`, `CHUNK_SIZE = 500`) -/

/-- Type `Photo & { _chunkId: string }` (`useGallery.ts`, line 18). -/
structure PhotoWithChunk extends Photo where
  chunkId : String
deriving DecidableEq, Repr

/-- A deletion-log record as written by `logDeletedPhoto`:
`{photoId, url, deletedAt, albumId}`. -/
structure DeletionLogEntry where
  photoId : String
  url : String
  deletedAt : Nat
  albumId : String
deriving DecidableEq, Repr

/-- The remote Firestore state seen by the chunked gateway: the metadata
document's `albums` array, the photo chunks (keyed by chunk id, listed in
`photoChunkIds` order), and the separate `deleted_photos` collection. -/
structure RemoteStore where
  albums : List Album
  chunks : List (String × List Photo)
  deletionLog : List DeletionLogEntry
deriving DecidableEq, Repr

/-- The photo list assembled by `getGalleryData`: every chunk's `data` array,
flattened in chunk order, each photo tagged with its `_chunkId`. -/
def galleryPhotos (st : RemoteStore) : List PhotoWithChunk :=
  st.chunks.flatMap (fun c => c.2.map (fun p => { toPhoto := p, chunkId := c.1 }))

/-- Gateway `deletePhoto(photoId, chunkId)` (`firebase.ts`, chunked variant, lines
140–160): look up the chunk document (missing chunk and missing photo each
throw), then remove the photo from the chunk's `data` array.  As the source
comments, the orphan-album check is left ("to the client-side state in
`useGallery`"), so the albums array is untouched here. -/
def deletePhotoRemote (st : RemoteStore) (photoId chunkId : String) :
    Except String RemoteStore :=
  match st.chunks.find? (fun c => c.1 == chunkId) with
  | none => .error ("Chunk not found")
  | some c =>
    if c.2.any (fun p => p.id == photoId) then
      .ok { st with chunks := st.chunks.map (fun c' =>
          if c'.1 == chunkId then (c'.1, c'.2.filter (fun p => p.id != photoId)) else c') }
    else .error ("Photo not found")

/-- Gateway `logDeletedPhoto(photo)` (`firebase.ts`, chunked variant, lines 198–207):
append `{photoId, url, deletedAt, albumId}` to `deleted_photos`.  The remote
write may fail; `logOk` says whether it succeeds.  Faithfully to the source —
which has no try/catch of its own — a failure propagates to the caller. -/
def logDeletedPhoto (logOk : Bool) (now : Nat) (st : RemoteStore) (photo : Photo) :
    Except String RemoteStore :=
  if logOk then
    .ok { st with deletionLog := st.deletionLog ++
        [{ photoId := photo.id, url := photo.url, deletedAt := now,
           albumId := photo.albumId }] }
  else .error ("Failed to write deletion log")

/-- Gateway `updateAlbum(albumId, details)` of the gateway (`firebase.ts`, chunked
variant, lines 171–185): find the first album with the given id in the
metadata document's array and merge the partial details into it; a missing id
is a silent no-op. -/
def fbUpdateAlbum : List Album → String → AlbumDetails → List Album
  | [], _, _ => []
  | a :: rest, albumId, d =>
    if a.id == albumId then applyDetails a d :: rest
    else a :: fbUpdateAlbum rest albumId d

/-! ## Gallery state engine — `src/app/hooks/useGallery.ts` -/

/-- The `useGallery` hook's in-memory state (lines 20–24), paired with the
remote store it talks to. -/
structure EngineState where
  store : RemoteStore
  photos : List PhotoWithChunk
  albums : List Album
deriving DecidableEq, Repr

/-- The sort of `fetchData` (`useGallery.ts`, line 30): the comparator
`new Date(b.date).getTime() - new Date(a.date).getTime()` orders photos
newest-first by upload date. -/
def byDateDesc (a b : PhotoWithChunk) : Bool := b.date ≤ a.date

/-- Operation `fetchData` (`useGallery.ts`, lines 26–38), success path: store the
fetched photos sorted newest-first, and the fetched albums, both otherwise
unmodified.  (An older variant of this hook additionally repaired dangling
`albumId` references here; this variant does not.) -/
def fetchData (st : RemoteStore) : EngineState :=
  { store := st,
    photos := (galleryPhotos st).mergeSort byDateDesc,
    albums := st.albums }

/-- Operation `deletePhotoItem(photoId)` (`useGallery.ts`, lines 91–100): find the photo
in local state (else a not-found error); `await logDeletedPhoto(...)`, whose
failure the surrounding try/catch re-throws, aborting the whole operation;
then `await deletePhoto(...)`; then drop the photo from local state.  No
orphan-album check is performed. -/
def deletePhotoItem (logOk : Bool) (now : Nat) (st : EngineState) (photoId : String) :
    Except String EngineState :=
  match st.photos.find? (fun p => p.id == photoId) with
  | none => .error ("Photo not found in local state")
  | some photoToDelete =>
    match logDeletedPhoto logOk now st.store photoToDelete.toPhoto with
    | .error e => .error e
    | .ok store₁ =>
      match deletePhotoRemote store₁ photoId photoToDelete.chunkId with
      | .error e => .error e
      | .ok store₂ =>
        .ok { store := store₂,
              photos := st.photos.filter (fun p => p.id != photoId),
              albums := st.albums }

/-- Operation `updateAlbum(albumId, details, oldTheme)` (`useGallery.ts`, lines
102–121).  When the theme changes — by JS truthiness, both theme strings
non-empty and different — every *local* album on the old theme is re-pointed
remotely (the concurrent `Promise.all` fan-out modelled as applied
sequentially), then the target album is updated remotely, and finally local
state patches only the target album. -/
def updateAlbum (st : EngineState) (albumId : String) (d : AlbumDetails)
    (oldTheme : Option String) : EngineState :=
  let fannedOut :=
    match d.theme, oldTheme with
    | some newTheme, some ot =>
      if newTheme ≠ "" ∧ ot ≠ "" ∧ newTheme ≠ ot then
        (st.albums.filter (fun a => a.theme == ot)).foldl
          (fun racc a => fbUpdateAlbum racc a.id { theme := some newTheme }) st.store.albums
      else st.store.albums
    | _, _ => st.store.albums
  let remoteAlbums := fbUpdateAlbum fannedOut albumId d
  { store := { st.store with albums := remoteAlbums },
    photos := st.photos,
    albums := st.albums.map (fun a => if a.id == albumId then applyDetails a d else a) }

/-! Concrete fixtures for the evaluation theorems. -/

/-- A photo whose `albumId` names a non-existent album. -/
def ghostPhoto : Photo :=
  { id := "p0", url := "u0", date := 0, title := "t0", albumId := "ghost",
    aspectRatio := Aspect.portrait }

/-- A remote snapshot containing `ghostPhoto` and no albums at all. -/
def danglingStore : RemoteStore :=
  { albums := [], chunks := [("c1", [ghostPhoto])], deletionLog := [] }

/-- The single album of the deletion fixtures. -/
def exampleAlbum : Album :=
  { id := "a1", name := "A", description := "", theme := "Travel", createdAt := 0 }

/-- The single photo of the deletion fixtures; it belongs to `exampleAlbum`. -/
def examplePhoto : Photo :=
  { id := "p1", url := "u1", date := 1, title := "t1", albumId := "a1",
    aspectRatio := Aspect.landscape }

/-- An engine state in which `exampleAlbum` contains exactly one photo,
`examplePhoto`, and local state mirrors the remote store. -/
def exampleState : EngineState :=
  { store := { albums := [exampleAlbum], chunks := [("c1", [examplePhoto])],
               deletionLog := [] },
    photos := [{ toPhoto := examplePhoto, chunkId := "c1" }],
    albums := [exampleAlbum] }

/-- Second album of the theme-rename fixture, also themed `"Travel"`. -/
def exampleAlbum₂ : Album :=
  { id := "a2", name := "B", description := "", theme := "Travel", createdAt := 1 }

/-- An engine state with two `"Travel"`-themed albums, local state mirroring
the remote store. -/
def twoTravelState : EngineState :=
  { store := { albums := [exampleAlbum, exampleAlbum₂], chunks := [], deletionLog := [] },
    photos := [],
    albums := [exampleAlbum, exampleAlbum₂] }

/-! ## Media URL rewriting — `src/app/services/cloudinary.ts`

JS strings are modelled as `List Char` (wrapped back into `String` at the
interface).  `String.prototype.includes`, `split` and
`replace(/w_\d+/, ...)` are embedded below. -/

/-- Marker `'cloudinary.com'`, the host marker tested by `url.includes(...)`. -/
def cloudMark : List Char :=
  ['c', 'l', 'o', 'u', 'd', 'i', 'n', 'a', 'r', 'y', '.', 'c', 'o', 'm']

/-- Marker `'/upload/'`, the separator of `url.split('/upload/')`. -/
def uploadMark : List Char := ['/', 'u', 'p', 'l', 'o', 'a', 'd', '/']

/-- Marker `'/upload/f_auto,q_auto'`, the transformation marker tested by
`url.includes(...)`. -/
def transMark : List Char :=
  ['/', 'u', 'p', 'l', 'o', 'a', 'd', '/', 'f', '_', 'a', 'u', 't', 'o', ',',
   'q', '_', 'a', 'u', 't', 'o']

/-- Segment `'f_auto,q_auto,w_'`, the inserted transformation segment (before the
width digits and trailing `'/'`). -/
def transSeg : List Char :=
  ['f', '_', 'a', 'u', 't', 'o', ',', 'q', '_', 'a', 'u', 't', 'o', ',', 'w', '_']

/-- Decimal digits of `${width}`, computed with structural fuel (first
argument) so that it reduces definitionally; `toDecimalAux n n` is the decimal
numeral of `n`. -/
def toDecimalAux : Nat → Nat → List Char
  | _, 0 => []
  | 0, _ => []
  | fuel + 1, n => toDecimalAux fuel (n / 10) ++ [Nat.digitChar (n % 10)]

/-- The JS string interpolation `${width}` for a natural width. -/
def digitChars (w : Nat) : List Char :=
  if w = 0 then ['0'] else toDecimalAux w w

/-- Test `hay.includes(needle)` — JS `String.prototype.includes` for a nonempty
needle. -/
def containsSub (needle : List Char) : List Char → Bool
  | [] => needle.isEmpty
  | c :: cs => needle.isPrefixOf (c :: cs) || containsSub needle cs

/-- Split at the first occurrence of the (nonempty) separator:
`some (before, after)` when it occurs, `none` otherwise.  `url.split(sep)` has
exactly two parts iff this is `some (before, after)` with no further
occurrence inside `after`. -/
def splitFirst (sep : List Char) : List Char → Option (List Char × List Char)
  | [] => none
  | c :: cs =>
    if sep.isPrefixOf (c :: cs) then some ([], (c :: cs).drop sep.length)
    else
      match splitFirst sep cs with
      | some (l, r) => some (c :: l, r)
      | none => none

/-- Replacement `url.replace(/w_\d+/, 'w_' + digs)`: replace the leftmost maximal
`w_<digits>` token (the regex match is `'w'`, `'_'`, then a maximal nonempty
digit run), or return the string unchanged when there is no match. -/
def replaceFirstW (digs : List Char) : List Char → List Char
  | c₁ :: c₂ :: c₃ :: rest =>
    if c₁ == 'w' && c₂ == '_' && c₃.isDigit then
      c₁ :: c₂ :: (digs ++ List.dropWhile Char.isDigit (c₃ :: rest))
    else c₁ :: replaceFirstW digs (c₂ :: c₃ :: rest)
  | l => l

/-- A width token `w_<digit>` occurs (anywhere) in the string. -/
def hasWTok : List Char → Bool
  | c₁ :: c₂ :: c₃ :: rest =>
    (c₁ == 'w' && c₂ == '_' && c₃.isDigit) || hasWTok (c₂ :: c₃ :: rest)
  | _ => false

/-- Function `getOptimizedImageUrl` (`cloudinary.ts`, lines 1–14) on char lists:
pass through non-Cloudinary URLs; if the URL already carries the
transformation marker, replace the first width token in place; otherwise, if
`split('/upload/')` yields exactly two parts, insert
`f_auto,q_auto,w_<width>/` after the first `'/upload/'`; else pass through. -/
def getOptimizedList (width : Nat) (url : List Char) : List Char :=
  if containsSub cloudMark url = false then url
  else if containsSub transMark url then replaceFirstW (digitChars width) url
  else
    match splitFirst uploadMark url with
    | none => url
    | some (pre, post) =>
      if containsSub uploadMark post then url
      else pre ++ uploadMark ++ transSeg ++ digitChars width ++ '/' :: post

/-- Function `getOptimizedImageUrl(url, width)` on `String`. -/
def getOptimizedImageUrl (url : String) (width : Nat) : String :=
  ⟨getOptimizedList width url.data⟩

/-- Segment `'/upload/f_auto,q_auto,'` — the inserted text up to (and excluding) its
trailing `w_` token. -/
def cutMark : List Char :=
  ['/', 'u', 'p', 'l', 'o', 'a', 'd', '/', 'f', '_', 'a', 'u', 't', 'o', ',',
   'q', '_', 'a', 'u', 't', 'o', ',']

/-- The amended-claim domain: no width token `w_<digits>` occurs in the part
of the URL before its first `'/upload/'` marker (vacuously satisfied when the
marker is absent). -/
def noWidthTokenBeforeUpload (url : List Char) : Bool :=
  match splitFirst uploadMark url with
  | some (pre, _) => !(hasWTok pre)
  | none => true

/-! ## Theorems -/

theorem snapToLadder_eq (t : ℚ) :
    snapToLadder t =
      if t ≤ 800 then 800 else if t ≤ 1200 then 1200 else if t ≤ 1600 then 1600
      else if t ≤ 2000 then 2000 else 2400 := by
  unfold snapToLadder BREAKPOINTS LAST_BREAKPOINT
  by_cases h1 : t ≤ 800 <;> by_cases h2 : t ≤ 1200 <;> by_cases h3 : t ≤ 1600 <;>
    by_cases h4 : t ≤ 2000 <;> by_cases h5 : t ≤ 2400 <;>
    simp [List.find?, h1, h2, h3, h4, h5]

theorem snapToLadder_mono {t₁ t₂ : ℚ} (h : t₁ ≤ t₂) : snapToLadder t₁ ≤ snapToLadder t₂ := by
  rw [snapToLadder_eq, snapToLadder_eq]
  split_ifs <;> linarith

theorem filter_ladder_min_eq (t : ℚ) :
    ((BREAKPOINTS.filter (fun bp => decide (t ≤ bp))).min?).getD LAST_BREAKPOINT =
      snapToLadder t := by
  rw [snapToLadder_eq]
  unfold BREAKPOINTS LAST_BREAKPOINT
  by_cases h1 : t ≤ 800 <;> by_cases h2 : t ≤ 1200 <;> by_cases h3 : t ≤ 1600 <;>
    by_cases h4 : t ≤ 2000 <;> by_cases h5 : t ≤ 2400 <;>
    norm_num [List.filter, List.min?, List.foldl, h1, h2, h3, h4, h5]

/-- Rewriting of `calculateOptimalImageWidth` written through `snapToLadder`. -/
theorem calculateOptimalImageWidth_eq (sw pr : ℚ) (a : Aspect) :
    calculateOptimalImageWidth sw pr a =
      max (min (snapToLadder (sw * min (if pr = 0 then 1 else pr) 2))
               (if a = Aspect.portrait then MAX_WIDTH_PORTRAIT else MAX_WIDTH_LANDSCAPE))
          MIN_WIDTH := rfl

theorem effectiveRatio_nonneg {r : ℚ} (hr : 0 ≤ r) : 0 ≤ effectiveRatio r := by
  unfold effectiveRatio
  rcases eq_or_lt_of_le hr with h | h
  · simp [← h]
  · rw [if_neg (by linarith)]
    exact le_min (le_of_lt h) (by norm_num)

theorem effectiveRatio_mono {r₁ r₂ : ℚ} (h1 : 0 < r₁) (h12 : r₁ ≤ r₂) :
    effectiveRatio r₁ ≤ effectiveRatio r₂ := by
  unfold effectiveRatio
  rw [if_neg (by linarith), if_neg (by linarith)]
  exact min_le_min h12 le_rfl

theorem width_pipeline_mono {t₁ t₂ m : ℚ} (h : t₁ ≤ t₂) :
    max (min (snapToLadder t₁) m) MIN_WIDTH ≤ max (min (snapToLadder t₂) m) MIN_WIDTH :=
  max_le_max (min_le_min (snapToLadder_mono h) le_rfl) le_rfl

/-- **C7** (amended): for a fixed aspect class, `calculateOptimalImageWidth` is
non-decreasing in the viewport width over nonnegative viewport widths (for any
fixed nonnegative pixel ratio), and non-decreasing in the pixel ratio over
strictly positive pixel ratios (for any fixed nonnegative viewport width).
The positivity restriction on the ratio is forced by the source's
`pixelRatio || 1` default, which maps ratio `0` above every small positive
ratio (see the counterexample). -/
theorem sizing_monotone (a : Aspect) (sw sw₁ sw₂ r r₁ r₂ : ℚ)
    (hsw : sw₁ ≤ sw₂) (hr : 0 ≤ r)
    (hsw0 : 0 ≤ sw) (hr₁ : 0 < r₁) (hr₁₂ : r₁ ≤ r₂) :
    calculateOptimalImageWidth sw₁ r a ≤ calculateOptimalImageWidth sw₂ r a ∧
    calculateOptimalImageWidth sw r₁ a ≤ calculateOptimalImageWidth sw r₂ a := by
  rw [calculateOptimalImageWidth_eq, calculateOptimalImageWidth_eq,
      calculateOptimalImageWidth_eq, calculateOptimalImageWidth_eq]
  constructor
  · exact width_pipeline_mono
      (mul_le_mul_of_nonneg_right hsw (effectiveRatio_nonneg hr))
  · exact width_pipeline_mono
      (mul_le_mul_of_nonneg_left (effectiveRatio_mono hr₁ hr₁₂) hsw0)

/-- **C7 counterexample**: as literally stated — "non-decreasing in ratio for
any fixed viewportWidth" — the claim fails at ratio `0`: the `pixelRatio || 1`
default makes the function value at ratio `0` exceed its value at ratio
`1/2`. -/
theorem sizing_monotone_counterexample :
    ¬ calculateOptimalImageWidth 2000 0 Aspect.landscape ≤
        calculateOptimalImageWidth 2000 (1/2) Aspect.landscape := by
  have hmax : (if Aspect.landscape = Aspect.portrait
      then MAX_WIDTH_PORTRAIT else MAX_WIDTH_LANDSCAPE) = MAX_WIDTH_LANDSCAPE := rfl
  rw [calculateOptimalImageWidth_eq, calculateOptimalImageWidth_eq, hmax]
  norm_num [snapToLadder_eq, MAX_WIDTH_LANDSCAPE, MIN_WIDTH]

/-- Witness for `sizing_monotone` at concrete inputs. -/
theorem sizing_monotone_witness :
    calculateOptimalImageWidth 600 1 Aspect.landscape ≤
        calculateOptimalImageWidth 700 1 Aspect.landscape ∧
    calculateOptimalImageWidth 500 1 Aspect.landscape ≤
        calculateOptimalImageWidth 500 2 Aspect.landscape :=
  sizing_monotone Aspect.landscape 500 600 700 1 1 2 (by norm_num)
    (by norm_num) (by norm_num) (by norm_num) (by norm_num)

/-- Unfolding of `specOptimalWidth` with its lets expanded. -/
theorem specOptimalWidth_eq (sw pr : ℚ) (a : Aspect) :
    specOptimalWidth sw pr a =
      max (min (((BREAKPOINTS.filter
              (fun bp => decide (sw * min pr 2 ≤ bp))).min?).getD LAST_BREAKPOINT)
          (if a = Aspect.portrait then MAX_WIDTH_PORTRAIT else MAX_WIDTH_LANDSCAPE))
        MIN_WIDTH := rfl

/-- **C8 counterexample**: at pixel ratio `0` the code defaults the ratio to 1
(`pixelRatio || 1`) while the claim's reference computation clamps `0` to `0`;
at viewport width 1000 the code yields 1200 but the reference yields 800. -/
theorem sizing_reference_counterexample :
    calculateOptimalImageWidth 1000 0 Aspect.landscape = 1200 ∧
      specOptimalWidth 1000 0 Aspect.landscape = 800 := by
  have hmax : (if Aspect.landscape = Aspect.portrait
      then MAX_WIDTH_PORTRAIT else MAX_WIDTH_LANDSCAPE) = MAX_WIDTH_LANDSCAPE := rfl
  constructor
  · rw [calculateOptimalImageWidth_eq, hmax]
    norm_num [snapToLadder_eq, MAX_WIDTH_LANDSCAPE, MIN_WIDTH]
  · rw [specOptimalWidth_eq, hmax]
    norm_num [List.filter, List.min?, List.foldl, MIN_WIDTH, LAST_BREAKPOINT, BREAKPOINTS]

/-- Unfolding of `specOptimalWidthAmended` with its lets expanded. -/
theorem specOptimalWidthAmended_eq (sw pr : ℚ) (a : Aspect) :
    specOptimalWidthAmended sw pr a =
      max (min (((BREAKPOINTS.filter
              (fun bp => decide (sw * min (if pr = 0 then 1 else pr) 2 ≤ bp))).min?).getD
            LAST_BREAKPOINT)
          (if a = Aspect.portrait then MAX_WIDTH_PORTRAIT else MAX_WIDTH_LANDSCAPE))
        MIN_WIDTH := rfl

/-- **C8** (amended): with the reference computation's first step corrected to
default a zero (falsy) pixel ratio to 1 before clamping — exactly what
`pixelRatio || 1` does — `calculateOptimalImageWidth` equals the reference
computation at every viewport width, pixel ratio and aspect class. -/
theorem sizing_matches_reference (sw pr : ℚ) (a : Aspect) :
    calculateOptimalImageWidth sw pr a = specOptimalWidthAmended sw pr a := by
  rw [calculateOptimalImageWidth_eq, specOptimalWidthAmended_eq, filter_ladder_min_eq]

theorem balanceAux_perm (col : Nat) (l : List Photo) : (balanceAux col l).Perm l := by
  suffices H : ∀ (n col : Nat) (l : List Photo), l.length ≤ n → (balanceAux col l).Perm l from
    H l.length col l le_rfl
  intro n
  induction n with
  | zero =>
    intro col l hl
    cases l with
    | nil => simp [balanceAux]
    | cons a t => simp at hl
  | succ n ih =>
    intro col l hl
    match l with
    | [] => simp [balanceAux]
    | [p] => simp [balanceAux]
    | p₁ :: p₂ :: rest =>
      have hlen : rest.length + 2 ≤ n + 1 := by simpa using hl
      rw [balanceAux]
      split
      · exact ((ih (col + 2) (p₁ :: rest)
            (by simp only [List.length_cons]; omega)).cons p₂).trans
          (List.Perm.swap p₁ p₂ rest)
      · exact (ih (col + span p₁) (p₂ :: rest)
            (by simp only [List.length_cons]; omega)).cons p₁

theorem balanceAux_length (col : Nat) (l : List Photo) :
    (balanceAux col l).length = l.length :=
  (balanceAux_perm col l).length_eq

/-- One step of the balancer when the swap condition fails at the head pair
(or the tail is empty): the head is emitted unchanged and the column counter
advances by its span. -/
theorem balanceAux_cons (col : Nat) (p : Photo) (l : List Photo)
    (h : ¬(col % 6 = 4 ∧ span p = 1 ∧ ((l.head?.map span).getD 0) = 2)) :
    balanceAux col (p :: l) = p :: balanceAux (col + span p) l := by
  cases l with
  | nil => simp [balanceAux]
  | cons q t => rw [balanceAux, if_neg (by simpa using h)]

theorem balanceAux_idem (col : Nat) (l : List Photo) :
    balanceAux col (balanceAux col l) = balanceAux col l := by
  suffices H : ∀ (n col : Nat) (l : List Photo), l.length ≤ n →
      balanceAux col (balanceAux col l) = balanceAux col l from H l.length col l le_rfl
  intro n
  induction n with
  | zero =>
    intro col l hl
    cases l with
    | nil => simp [balanceAux]
    | cons a t => simp at hl
  | succ n ih =>
    intro col l hl
    match l with
    | [] => simp [balanceAux]
    | [p] => simp [balanceAux]
    | p₁ :: p₂ :: rest =>
      have hlen : rest.length + 2 ≤ n + 1 := by simpa using hl
      by_cases hC : col % 6 = 4 ∧ span p₁ = 1 ∧ span p₂ = 2
      · rw [balanceAux, if_pos hC]
        rw [balanceAux_cons col p₂ _ (by
          rintro ⟨-, hs, -⟩
          rw [hC.2.2] at hs
          simp at hs)]
        rw [hC.2.2, ih (col + 2) (p₁ :: rest) (by simp only [List.length_cons]; omega)]
      · rw [balanceAux, if_neg hC]
        have htail := ih (col + span p₁) (p₂ :: rest)
          (by simp only [List.length_cons]; omega)
        have hhead : ¬(col % 6 = 4 ∧ span p₁ = 1 ∧
            ((((balanceAux (col + span p₁) (p₂ :: rest)).head?).map span).getD 0) = 2) := by
          cases rest with
          | nil =>
            rw [show balanceAux (col + span p₁) [p₂] = [p₂] from by simp [balanceAux]]
            simpa using hC
          | cons r rs =>
            by_cases hC' : (col + span p₁) % 6 = 4 ∧ span p₂ = 1 ∧ span r = 2
            · rw [balanceAux, if_pos hC']
              rintro ⟨h4, h1, -⟩
              obtain ⟨h4', -, -⟩ := hC'
              rw [h1] at h4'
              omega
            · rw [balanceAux, if_neg hC']
              simpa using hC
        rw [balanceAux_cons col p₁ _ hhead, htail]

/-- **C6**: the grid layout balancer never changes the multiset of photos —
its output is a permutation of its input — and it is a fixed point of itself:
re-running it on its own output changes nothing (hence performs no further
swaps). -/
theorem layout_balancer_invariant (l : List Photo) :
    (layoutOptimize l).Perm l ∧ layoutOptimize (layoutOptimize l) = layoutOptimize l :=
  ⟨balanceAux_perm 0 l, balanceAux_idem 0 l⟩

/-- **C9**: with 45 filtered photos and the fixed page size 20, pagination
yields exactly 3 pages, page 3 holds exactly 5 items, and in general item `i`
of page `p` is the filtered item at index `(p-1)*20 + i`. -/
theorem pagination_correct (l : List Photo) (p i : Nat)
    (h45 : l.length = 45) (hi : i < ITEMS_PER_PAGE) :
    (totalPages l = 3 ∧ (paginatedPhotos l 3).length = 5) ∧
    (paginatedPhotos l p)[i]? = l[(p - 1) * ITEMS_PER_PAGE + i]? := by
  refine ⟨⟨by simp [totalPages, h45, ITEMS_PER_PAGE], by
    simp [paginatedPhotos, h45, ITEMS_PER_PAGE]⟩, ?_⟩
  unfold paginatedPhotos
  rw [List.getElem?_take_of_lt hi, List.getElem?_drop]

/-- Witness for `pagination_correct` on a concrete 45-photo list. -/
theorem pagination_correct_witness :
    (totalPages ((List.range 45).map mkPhoto) = 3 ∧
      (paginatedPhotos ((List.range 45).map mkPhoto) 3).length = 5) ∧
    (paginatedPhotos ((List.range 45).map mkPhoto) 3)[2]? =
      ((List.range 45).map mkPhoto)[42]? :=
  pagination_correct ((List.range 45).map mkPhoto) 3 2 (by simp) (by norm_num [ITEMS_PER_PAGE])

/-- **C10**: photo upload never classifies an image as `square`: the stored
aspect class is `landscape` exactly when the decoded width strictly exceeds the
height, and `portrait` otherwise — in particular a square image is classified
`portrait`. -/
theorem upload_aspect_never_square (id url : String) (d : Nat) (t a : String) (w h : Nat) :
    (buildUploadedPhoto id url d t a w h).aspectRatio ≠ Aspect.square ∧
    ((buildUploadedPhoto id url d t a w h).aspectRatio = Aspect.landscape ↔ h < w) ∧
    (w = h → (buildUploadedPhoto id url d t a w h).aspectRatio = Aspect.portrait) := by
  unfold buildUploadedPhoto
  by_cases hw : h < w
  · simp [hw]
    omega
  · simp [hw]

/-- Witness for `upload_aspect_never_square` on a square image. -/
theorem upload_aspect_never_square_witness :
    (buildUploadedPhoto ("p") "u" 0 ("t") "" 5 5).aspectRatio = Aspect.portrait :=
  (upload_aspect_never_square ("p") "u" 0 ("t") "" 5 5).2.2 rfl

/-- **C1**: evaluation at the failing input.  `fetchData` stores a loaded
photo whose non-empty `albumId` (`"ghost"`) references no album in the loaded
(empty) albums list, with the `albumId` left as is rather than coerced to
`''`: the dangling-reference repair claimed by the spec is absent from this
variant of `fetchData`. -/
theorem load_keeps_dangling_reference :
    (fetchData danglingStore).photos.map (fun p => p.albumId) = ["ghost"] ∧
    (fetchData danglingStore).albums = [] := by
  constructor
  · show ((galleryPhotos danglingStore).mergeSort byDateDesc).map (fun p => p.albumId) = _
    rw [show galleryPhotos danglingStore = [{ toPhoto := ghostPhoto, chunkId := "c1" }]
        from rfl,
      List.mergeSort_singleton]
    rfl
  · rfl

/-- **C2**: evaluation at the failing input.  When the deletion-log write
fails, `deletePhotoItem` aborts with that error — the photo is neither removed
remotely nor locally — contradicting the claimed swallow-and-continue
behaviour; with a successful log write the same call succeeds. -/
theorem deletion_log_failure_aborts :
    deletePhotoItem false 0 exampleState ("p1") =
        Except.error ("Failed to write deletion log") ∧
    (deletePhotoItem true 0 exampleState ("p1")).isOk = true := ⟨rfl, rfl⟩

/-- **C3**: evaluation at the failing input.  Deleting the only photo of
`exampleAlbum` succeeds and empties the album, yet the album remains present
both in local state and in the remote store: no orphan-album cleanup happens
in this operation. -/
theorem orphan_album_not_deleted :
    (deletePhotoItem true 0 exampleState ("p1")).toOption.map
        (fun st => (st.albums, st.store.albums, st.photos)) =
      some ([exampleAlbum], [exampleAlbum], []) := rfl

/-- **C4 counterexample**: renaming theme `"Travel"` to `"Trips"` through
album `a1` leaves the *other* local album (`a2`) still themed `"Travel"`
(the optimistic local update only patches the target album), even though the
remote store is fully renamed — so ("zero albums (remote and local) remain
with the old theme") is false. -/
theorem theme_rename_counterexample :
    ((updateAlbum twoTravelState ("a1") { theme := some ("Trips") }
          (some ("Travel"))).albums.filter (fun a => a.theme == "Travel")).map
        (fun a => a.id) = ["a2"] ∧
    ((updateAlbum twoTravelState ("a1") { theme := some ("Trips") }
        (some ("Travel"))).store.albums.filter (fun a => a.theme == "Travel")) = [] :=
  ⟨rfl, rfl⟩

theorem applyDetails_id (a : Album) (d : AlbumDetails) : (applyDetails a d).id = a.id := rfl

/-- With duplicate-free album ids, the gateway's first-match update is the
pointwise update. -/
theorem fbUpdateAlbum_eq_map (l : List Album) (albumId : String) (d : AlbumDetails)
    (h : (l.map Album.id).Nodup) :
    fbUpdateAlbum l albumId d =
      l.map (fun a => if a.id == albumId then applyDetails a d else a) := by
  induction l with
  | nil => rfl
  | cons a rest ih =>
    rw [List.map_cons, List.nodup_cons] at h
    rw [fbUpdateAlbum, List.map_cons]
    by_cases ha : (a.id == albumId) = true
    · rw [if_pos ha, if_pos ha]
      have hrest : ∀ b ∈ rest, (if b.id == albumId then applyDetails b d else b) = b := by
        intro b hb
        rw [if_neg]
        intro hb'
        exact h.1 (by
          rw [show albumId = a.id from (beq_iff_eq.mp ha).symm] at hb'
          exact (beq_iff_eq.mp hb') ▸ List.mem_map_of_mem Album.id hb)
      rw [List.map_congr_left hrest, List.map_id']
    · rw [if_neg ha, if_neg ha, ih h.2]

theorem map_album_id_of_ite (l : List Album) (c : Album → Bool) (d : AlbumDetails) :
    (l.map (fun a => if c a then applyDetails a d else a)).map Album.id =
      l.map Album.id := by
  rw [List.map_map]
  apply List.map_congr_left
  intro a _
  by_cases h : c a = true <;> simp [h, applyDetails]

/-- The sequential fan-out of single-album theme updates, with duplicate-free
ids, is the pointwise retheming of every album whose id occurs in the
worklist. -/
theorem foldl_retheme_eq_map (nt : String) (work : List Album) :
    ∀ (racc : List Album), (racc.map Album.id).Nodup →
      work.foldl (fun r w => fbUpdateAlbum r w.id { theme := some nt }) racc =
        racc.map (fun a =>
          if work.any (fun w => a.id == w.id) then applyDetails a { theme := some nt }
          else a) := by
  induction work with
  | nil =>
    intro racc _
    simp
  | cons w ws ih =>
    intro racc h
    rw [List.foldl_cons, fbUpdateAlbum_eq_map racc w.id _ h,
      ih _ (by rw [map_album_id_of_ite]; exact h), List.map_map]
    apply List.map_congr_left
    intro a _
    simp only [Function.comp]
    by_cases hw : (a.id == w.id) = true
    · rw [if_pos hw]
      have hid : (applyDetails a { theme := some nt }).id = a.id := rfl
      by_cases hws : (ws.any (fun w' => a.id == w'.id)) = true
      · rw [if_pos (by rw [hid]; exact hws),
          show ((w :: ws).any (fun w' => a.id == w'.id)) = true from by
            simp only [List.any_cons, hws, Bool.or_true]]
        rfl
      · rw [if_neg (by rw [hid]; exact hws),
          show ((w :: ws).any (fun w' => a.id == w'.id)) = true from by
            simp only [List.any_cons, hw, Bool.true_or],
          if_pos rfl]
    · rw [if_neg hw]
      have : ((w :: ws).any (fun w' => a.id == w'.id)) = (ws.any (fun w' => a.id == w'.id)) := by
        simp only [List.any_cons, hw, Bool.false_or]
      rw [this]

/-- With duplicate-free ids, membership in the old-theme worklist is exactly
having the old theme. -/
theorem retheme_cond_eq (l : List Album) (ot : String) (a : Album)
    (h : (l.map Album.id).Nodup) (ha : a ∈ l) :
    ((l.filter (fun b => b.theme == ot)).any (fun w => a.id == w.id)) = (a.theme == ot) := by
  by_cases hth : (a.theme == ot) = true
  · rw [hth]
    rw [List.any_eq_true]
    exact ⟨a, List.mem_filter.mpr ⟨ha, hth⟩, by simp⟩
  · rw [Bool.eq_false_iff.mpr (fun hx => hth hx) ]
    rw [Bool.eq_false_iff]
    intro hx
    rw [List.any_eq_true] at hx
    obtain ⟨w, hwmem, hwid⟩ := hx
    obtain ⟨hwl, hwth⟩ := List.mem_filter.mp hwmem
    have : a = w := List.inj_on_of_nodup_map h ha hwl (beq_iff_eq.mp hwid)
    exact hth (this ▸ hwth)

/-- Unfolding of `updateAlbum` in the theme-renaming case, with its lets and match
reduced. -/
theorem updateAlbum_renaming_eq (st : EngineState) (albumId : String) (d : AlbumDetails)
    (nt ot : String) (hd : d.theme = some nt) (hnt : nt ≠ "") (hot : ot ≠ "")
    (hne : nt ≠ ot) :
    updateAlbum st albumId d (some ot) =
      { store :=
          { st.store with
            albums :=
              fbUpdateAlbum
                ((st.albums.filter (fun a => a.theme == ot)).foldl
                  (fun racc a => fbUpdateAlbum racc a.id { theme := some nt })
                  st.store.albums)
                albumId d },
        photos := st.photos,
        albums :=
          st.albums.map (fun a => if a.id == albumId then applyDetails a d else a) } := by
  obtain ⟨dn, dd, dt⟩ := d
  simp only [AlbumDetails.theme] at hd
  subst hd
  simp only [updateAlbum]
  rw [if_pos ⟨hnt, hot, hne⟩]

/-- **C4** (amended): when the theme is renamed (`details.theme = nt`,
`oldTheme = ot`, both non-empty and different), local state mirrors the remote
albums, and album ids are duplicate-free, then after `updateAlbum` the
*remote* album collection has zero albums with theme `ot` and every album that
previously had theme `ot` now carries `nt`; *locally*, only the target album
is guaranteed to carry the new theme (other albums keep their old local theme
until a refetch — see the counterexample). -/
theorem theme_rename_amended (st : EngineState) (albumId : String) (d : AlbumDetails)
    (nt ot : String) (hsync : st.albums = st.store.albums)
    (hnodup : (st.albums.map Album.id).Nodup) (hd : d.theme = some nt)
    (hnt : nt ≠ "") (hot : ot ≠ "") (hne : nt ≠ ot) :
    (∀ a ∈ (updateAlbum st albumId d (some ot)).store.albums, a.theme ≠ ot) ∧
    (∀ a ∈ st.albums, a.theme = ot →
      ∃ a' ∈ (updateAlbum st albumId d (some ot)).store.albums,
        a'.id = a.id ∧ a'.theme = nt) ∧
    (∀ a ∈ (updateAlbum st albumId d (some ot)).albums, a.id = albumId → a.theme = nt) := by
  have hfan : (st.albums.filter (fun a => a.theme == ot)).foldl
      (fun racc a => fbUpdateAlbum racc a.id { theme := some nt }) st.store.albums =
      st.albums.map (fun a =>
        if a.theme == ot then applyDetails a { theme := some nt } else a) := by
    rw [← hsync, foldl_retheme_eq_map nt _ st.albums hnodup]
    apply List.map_congr_left
    intro a ha
    rw [retheme_cond_eq st.albums ot a hnodup ha]
  have hsa : (updateAlbum st albumId d (some ot)).store.albums =
      st.albums.map (fun b =>
        if (if b.theme == ot then applyDetails b { theme := some nt } else b).id == albumId
        then applyDetails (if b.theme == ot then applyDetails b { theme := some nt } else b) d
        else (if b.theme == ot then applyDetails b { theme := some nt } else b)) := by
    rw [updateAlbum_renaming_eq st albumId d nt ot hd hnt hot hne]
    show fbUpdateAlbum _ albumId d = _
    rw [hfan, fbUpdateAlbum_eq_map _ _ _ (by rw [map_album_id_of_ite]; exact hnodup),
      List.map_map]
    rfl
  have hla : (updateAlbum st albumId d (some ot)).albums =
      st.albums.map (fun a => if a.id == albumId then applyDetails a d else a) := by
    rw [updateAlbum_renaming_eq st albumId d nt ot hd hnt hot hne]
  have hidops : ∀ b : Album,
      (if b.theme == ot then applyDetails b { theme := some nt } else b).id = b.id := by
    intro b
    by_cases h : (b.theme == ot) = true
    · rw [if_pos h]; rfl
    · rw [if_neg h]
  refine ⟨?_, ?_, ?_⟩
  · intro a' ha'
    rw [hsa, List.mem_map] at ha'
    obtain ⟨b, hb, rfl⟩ := ha'
    by_cases h2 : ((if b.theme == ot then applyDetails b { theme := some nt } else b).id
        == albumId) = true
    · rw [if_pos h2]
      show (applyDetails _ d).theme ≠ ot
      simp only [applyDetails, hd, Option.getD_some]
      exact hne
    · rw [if_neg h2]
      by_cases h1 : (b.theme == ot) = true
      · rw [if_pos h1]
        show (applyDetails b { theme := some nt }).theme ≠ ot
        simp only [applyDetails, Option.getD_some]
        exact hne
      · rw [if_neg h1]
        exact fun hh => h1 (by simp [hh])
  · intro b hb hbth
    refine ⟨_, by rw [hsa]; exact List.mem_map_of_mem _ hb, ?_, ?_⟩
    · by_cases h2 : ((if b.theme == ot then applyDetails b { theme := some nt } else b).id
          == albumId) = true
      · rw [if_pos h2, applyDetails_id, hidops b]
      · rw [if_neg h2, hidops b]
    · by_cases h2 : ((if b.theme == ot then applyDetails b { theme := some nt } else b).id
          == albumId) = true
      · rw [if_pos h2]
        simp only [applyDetails, hd, Option.getD_some]
      · rw [if_neg h2, if_pos (by simp [hbth])]
        simp only [applyDetails, Option.getD_some]
  · intro a' ha' hid
    rw [hla, List.mem_map] at ha'
    obtain ⟨b, hb, rfl⟩ := ha'
    by_cases h2 : (b.id == albumId) = true
    · rw [if_pos h2] at hid ⊢
      simp only [applyDetails, hd, Option.getD_some]
    · rw [if_neg h2] at hid ⊢
      exact absurd (by simp [hid]) h2

/-- Witness for `theme_rename_amended` on the two-Travel-albums fixture. -/
theorem theme_rename_amended_witness :
    (∀ a ∈ (updateAlbum twoTravelState ("a1") { theme := some ("Trips") }
        (some ("Travel"))).store.albums, a.theme ≠ "Travel") ∧
    (∀ a ∈ twoTravelState.albums, a.theme = "Travel" →
      ∃ a' ∈ (updateAlbum twoTravelState ("a1") { theme := some ("Trips") }
          (some ("Travel"))).store.albums, a'.id = a.id ∧ a'.theme = "Trips") ∧
    (∀ a ∈ (updateAlbum twoTravelState ("a1") { theme := some ("Trips") }
        (some ("Travel"))).albums, a.id = "a1" → a.theme = "Trips") :=
  theme_rename_amended twoTravelState ("a1") { theme := some ("Trips") } "Trips" "Travel"
    rfl (by decide) rfl (by decide) (by decide) (by decide)

/-- **C5 counterexample**: `getOptimizedImageUrl` is *not* idempotent on every
URL.  For a Cloudinary URL that carries a `w_<digits>` token *before* its
`/upload/` marker, the first application inserts the transformation segment,
and the second application — now seeing the transformation marker — rewrites
the *earlier* token instead of the inserted one. -/
theorem delivery_url_not_idempotent :
    getOptimizedImageUrl
        (getOptimizedImageUrl ("https://cloudinary.com/w_9/upload/img.jpg") 400) 400 ≠
      getOptimizedImageUrl ("https://cloudinary.com/w_9/upload/img.jpg") 400 := by
  decide

theorem digitChar_isDigit : ∀ d : Nat, d < 10 → (Nat.digitChar d).isDigit = true := by decide

theorem toDecimalAux_digits (fuel : Nat) :
    ∀ (n : Nat), ∀ c ∈ toDecimalAux fuel n, c.isDigit = true := by
  induction fuel with
  | zero =>
    intro n c hc
    cases n <;> simp [toDecimalAux] at hc
  | succ fuel ih =>
    intro n c hc
    cases n with
    | zero => simp [toDecimalAux] at hc
    | succ m =>
      have hc' : c ∈ toDecimalAux fuel ((m + 1) / 10) ++ [Nat.digitChar ((m + 1) % 10)] := hc
      rw [List.mem_append] at hc'
      rcases hc' with h | h
      · exact ih _ c h
      · rw [List.mem_singleton] at h
        subst h
        exact digitChar_isDigit _ (Nat.mod_lt _ (by norm_num))

theorem digitChars_ne_nil (w : Nat) : digitChars w ≠ [] := by
  unfold digitChars
  split
  · simp
  · rename_i hw
    obtain ⟨m, rfl⟩ : ∃ m, w = m + 1 := ⟨w - 1, by omega⟩
    show toDecimalAux m ((m + 1) / 10) ++ [Nat.digitChar ((m + 1) % 10)] ≠ []
    simp

theorem digitChars_digits (w : Nat) : ∀ c ∈ digitChars w, c.isDigit = true := by
  unfold digitChars
  split
  · intro c hc
    rw [List.mem_singleton] at hc
    subst hc
    decide
  · exact toDecimalAux_digits w w

theorem containsSub_cons (n : List Char) (c : Char) (l : List Char)
    (h : containsSub n l = true) : containsSub n (c :: l) = true := by
  rw [containsSub, h, Bool.or_true]

theorem containsSub_append (n x l : List Char) (h : containsSub n l = true) :
    containsSub n (x ++ l) = true := by
  induction x with
  | nil => simpa using h
  | cons c cs ih =>
    rw [List.cons_append]
    exact containsSub_cons n c _ ih

theorem isPrefixOf_append_self (n t : List Char) : n.isPrefixOf (n ++ t) = true := by
  induction n with
  | nil => simp [List.isPrefixOf]
  | cons c cs ih => simp [List.isPrefixOf, ih]

theorem containsSub_self_append (n t : List Char) (hn : n ≠ []) :
    containsSub n (n ++ t) = true := by
  match n, hn with
  | c :: cs, _ =>
    rw [List.cons_append, containsSub, ← List.cons_append, isPrefixOf_append_self,
      Bool.true_or]

theorem containsSub_middle (n x t : List Char) (hn : n ≠ []) :
    containsSub n (x ++ (n ++ t)) = true :=
  containsSub_append n x _ (containsSub_self_append n t hn)

theorem dropWhile_append_all (p : Char → Bool) (xs ys : List Char)
    (h : ∀ c ∈ xs, p c = true) :
    List.dropWhile p (xs ++ ys) = List.dropWhile p ys := by
  induction xs with
  | nil => rfl
  | cons c cs ih =>
    rw [List.cons_append, List.dropWhile_cons, if_pos (h c (List.mem_cons_self c cs))]
    exact ih (fun c' hc' => h c' (List.mem_cons_of_mem _ hc'))

theorem dropWhile_idem (p : Char → Bool) (l : List Char) :
    List.dropWhile p (List.dropWhile p l) = List.dropWhile p l := by
  induction l with
  | nil => rfl
  | cons c cs ih =>
    rw [List.dropWhile_cons]
    by_cases h : p c = true
    · rw [if_pos h]
      exact ih
    · rw [if_neg h, List.dropWhile_cons, if_neg h]

theorem replaceFirstW_head? (digs l : List Char) :
    (replaceFirstW digs l).head? = l.head? := by
  match l with
  | [] => rfl
  | [c] => rfl
  | [c₁, c₂] => rfl
  | c₁ :: c₂ :: c₃ :: rest =>
    rw [replaceFirstW]
    split <;> rfl

theorem replaceFirstW_second? (digs l : List Char) :
    (replaceFirstW digs l).tail.head? = l.tail.head? := by
  match l with
  | [] => rfl
  | [c] => rfl
  | [c₁, c₂] => rfl
  | c₁ :: c₂ :: c₃ :: rest =>
    rw [replaceFirstW]
    split
    · rfl
    · show (replaceFirstW digs (c₂ :: c₃ :: rest)).head? = _
      rw [replaceFirstW_head?]
      rfl

theorem replaceFirstW_idem (digs : List Char) (hne : digs ≠ [])
    (hdig : ∀ c ∈ digs, c.isDigit = true) (l : List Char) :
    replaceFirstW digs (replaceFirstW digs l) = replaceFirstW digs l := by
  suffices H : ∀ (n : Nat) (l : List Char), l.length ≤ n →
      replaceFirstW digs (replaceFirstW digs l) = replaceFirstW digs l from
    H l.length l le_rfl
  intro n
  induction n with
  | zero =>
    intro l hl
    cases l with
    | nil => rfl
    | cons c cs => simp at hl
  | succ n ih =>
    intro l hl
    match l with
    | [] => rfl
    | [c] => rfl
    | [c₁, c₂] => rfl
    | c₁ :: c₂ :: c₃ :: rest =>
      have hlen : rest.length + 3 ≤ n + 1 := by simpa using hl
      rw [replaceFirstW]
      by_cases h : (c₁ == 'w' && c₂ == '_' && c₃.isDigit) = true
      · rw [if_pos h]
        obtain ⟨hw, hu, hd3⟩ : (c₁ == 'w') = true ∧ (c₂ == '_') = true ∧ c₃.isDigit = true := by
          simpa [Bool.and_eq_true, and_assoc] using h
        obtain ⟨d, ds, rfl⟩ : ∃ d ds, digs = d :: ds := by
          match digs, hne with
          | d :: ds, _ => exact ⟨d, ds, rfl⟩
        rw [show c₁ :: c₂ :: ((d :: ds) ++ List.dropWhile Char.isDigit (c₃ :: rest)) =
            c₁ :: c₂ :: d :: (ds ++ List.dropWhile Char.isDigit (c₃ :: rest)) from rfl]
        rw [replaceFirstW, if_pos (by
          rw [hw, hu, hdig d (List.mem_cons_self d ds)]
          decide)]
        rw [show d :: (ds ++ List.dropWhile Char.isDigit (c₃ :: rest)) =
            (d :: ds) ++ List.dropWhile Char.isDigit (c₃ :: rest) from rfl,
          dropWhile_append_all Char.isDigit (d :: ds) _ hdig,
          dropWhile_idem]
      · rw [if_neg h]
        have h2 : (replaceFirstW digs (c₂ :: c₃ :: rest)).head? = some c₂ := by
          rw [replaceFirstW_head?]
          rfl
        have h3 : (replaceFirstW digs (c₂ :: c₃ :: rest)).tail.head? = some c₃ := by
          rw [replaceFirstW_second?]
          rfl
        obtain ⟨t, hxyt⟩ : ∃ t, replaceFirstW digs (c₂ :: c₃ :: rest) = c₂ :: c₃ :: t := by
          match hr : replaceFirstW digs (c₂ :: c₃ :: rest) with
          | [] => rw [hr] at h2; simp at h2
          | [x] =>
            rw [hr] at h2 h3
            simp at h3
          | x :: y :: t =>
            rw [hr] at h2 h3
            simp only [List.head?, List.tail, Option.some.injEq] at h2 h3
            exact ⟨t, by rw [h2, h3]⟩
        rw [hxyt, replaceFirstW, if_neg h, ← hxyt,
          ih (c₂ :: c₃ :: rest) (by simp only [List.length_cons]; omega)]

theorem containsSub_dropWhile_digit (n l : List Char) (hn : n.head? = some '/')
    (h : containsSub n l = true) :
    containsSub n (List.dropWhile Char.isDigit l) = true := by
  induction l with
  | nil => simpa using h
  | cons c cs ih =>
    rw [List.dropWhile_cons]
    by_cases hc : Char.isDigit c = true
    · rw [if_pos hc]
      apply ih
      obtain ⟨n', rfl⟩ : ∃ n', n = '/' :: n' := by
        cases n with
        | nil => simp at hn
        | cons c₀ n' =>
          have : c₀ = '/' := by simpa using hn
          exact ⟨n', by rw [this]⟩
      have hslash : ('/' == c) = false := by
        cases hcc : ('/' == c)
        · rfl
        · have hdc := hc
          rw [← beq_iff_eq.mp hcc] at hdc
          exact absurd hdc (by decide)
      rw [containsSub, List.isPrefixOf, hslash, Bool.false_and, Bool.false_or] at h
      exact h
    · rw [if_neg hc]
      exact h

theorem replaceFirstW_transMark_left (digs t : List Char) :
    replaceFirstW digs (transMark ++ t) = transMark ++ replaceFirstW digs t := by
  match t with
  | [] => rfl
  | [a] => rfl
  | a :: b :: t' => rfl

theorem replaceFirstW_preserves_transMark (digs : List Char) (l : List Char)
    (h : containsSub transMark l = true) :
    containsSub transMark (replaceFirstW digs l) = true := by
  suffices H : ∀ (n : Nat) (l : List Char), l.length ≤ n → containsSub transMark l = true →
      containsSub transMark (replaceFirstW digs l) = true from H l.length l le_rfl h
  intro n
  induction n with
  | zero =>
    intro l hl hm
    cases l with
    | nil => exact hm
    | cons c cs => simp at hl
  | succ n ih =>
    intro l hl hm
    match l with
    | [] => exact hm
    | [c] => exact hm
    | [c₁, c₂] => exact hm
    | c₁ :: c₂ :: c₃ :: rest =>
      have hlen : rest.length + 3 ≤ n + 1 := by simpa using hl
      by_cases hpre : transMark.isPrefixOf (c₁ :: c₂ :: c₃ :: rest) = true
      · obtain ⟨t, ht⟩ : ∃ t, c₁ :: c₂ :: c₃ :: rest = transMark ++ t := by
          obtain ⟨t, ht⟩ := List.isPrefixOf_iff_prefix.mp hpre
          exact ⟨t, ht.symm⟩
        rw [ht, replaceFirstW_transMark_left]
        exact containsSub_self_append transMark _ (by decide)
      · rw [replaceFirstW]
        by_cases hcond : (c₁ == 'w' && c₂ == '_' && c₃.isDigit) = true
        · rw [if_pos hcond]
          obtain ⟨hw, hu, hd3⟩ : (c₁ == 'w') = true ∧ (c₂ == '_') = true ∧ c₃.isDigit = true := by
            simpa [Bool.and_eq_true, and_assoc] using hcond
          have hc₁ : c₁ = 'w' := beq_iff_eq.mp hw
          have hc₂ : c₂ = '_' := beq_iff_eq.mp hu
          subst hc₁
          subst hc₂
          have h₁ : containsSub transMark (c₃ :: rest) = true := by
            rw [containsSub,
              show transMark.isPrefixOf ('w' :: '_' :: c₃ :: rest) = false from rfl,
              Bool.false_or, containsSub,
              show transMark.isPrefixOf ('_' :: c₃ :: rest) = false from rfl,
              Bool.false_or] at hm
            exact hm
          exact containsSub_cons _ _ _ (containsSub_cons _ _ _
            (containsSub_append _ _ _
              (containsSub_dropWhile_digit transMark _ rfl h₁)))
        · rw [if_neg hcond]
          rw [containsSub, Bool.eq_false_iff.mpr hpre, Bool.false_or] at hm
          exact containsSub_cons _ _ _
            (ih (c₂ :: c₃ :: rest) (by simp only [List.length_cons]; omega) hm)

theorem replaceFirstW_append (digs y : List Char)
    (hy : ((y.head?.map (fun y₀ => y₀.isDigit || y₀ == '_')).getD false) = false) :
    ∀ x : List Char, hasWTok x = false →
      replaceFirstW digs (x ++ y) = x ++ replaceFirstW digs y := by
  suffices H : ∀ (n : Nat) (x : List Char), x.length ≤ n → hasWTok x = false →
      replaceFirstW digs (x ++ y) = x ++ replaceFirstW digs y from
    fun x hx => H x.length x le_rfl hx
  intro n
  induction n with
  | zero =>
    intro x hl hx
    cases x with
    | nil => rfl
    | cons a x' => simp at hl
  | succ n ih =>
    intro x hl hx
    match x with
    | [] => rfl
    | [a] =>
      cases y with
      | nil => rfl
      | cons y₀ yt =>
        cases yt with
        | nil => rfl
        | cons y₁ yt' =>
          have hy₀ : (y₀ == '_') = false := by
            simp only [List.head?, Option.map_some', Option.getD_some,
              Bool.or_eq_false_iff] at hy
            exact hy.2
          rw [List.cons_append, List.nil_append, replaceFirstW, if_neg (by simp [hy₀])]
          rfl
    | [a, b] =>
      cases y with
      | nil => rfl
      | cons y₀ yt =>
        have hy₀d : y₀.isDigit = false := by
          simp only [List.head?, Option.map_some', Option.getD_some,
            Bool.or_eq_false_iff] at hy
          exact hy.1
        rw [show ([a, b] ++ (y₀ :: yt)) = a :: b :: y₀ :: yt from rfl, replaceFirstW,
          if_neg (by simp [hy₀d])]
        rw [show b :: y₀ :: yt = [b] ++ (y₀ :: yt) from rfl,
          ih [b] (by simp only [List.length_cons, List.length_nil] at hl ⊢; omega) rfl]
        rfl
    | a :: b :: c :: x'' =>
      have hx' : ((a == 'w' && b == '_' && c.isDigit) = false) ∧
          hasWTok (b :: c :: x'') = false := by
        rw [hasWTok] at hx
        exact ⟨(Bool.or_eq_false_iff.mp hx).1, (Bool.or_eq_false_iff.mp hx).2⟩
      rw [show ((a :: b :: c :: x'') ++ y) = a :: b :: c :: (x'' ++ y) from rfl,
        replaceFirstW, if_neg (by simp [hx'.1])]
      rw [show b :: c :: (x'' ++ y) = (b :: c :: x'') ++ y from rfl,
        ih (b :: c :: x'') (by simp only [List.length_cons] at hl ⊢; omega) hx'.2]
      rfl

theorem hasWTok_append (y : List Char)
    (hyh : ((y.head?.map (fun y₀ => y₀.isDigit || y₀ == '_')).getD false) = false)
    (hy : hasWTok y = false) :
    ∀ x : List Char, hasWTok x = false → hasWTok (x ++ y) = false := by
  suffices H : ∀ (n : Nat) (x : List Char), x.length ≤ n → hasWTok x = false →
      hasWTok (x ++ y) = false from fun x hx => H x.length x le_rfl hx
  intro n
  induction n with
  | zero =>
    intro x hl hx
    cases x with
    | nil => exact hy
    | cons a x' => simp at hl
  | succ n ih =>
    intro x hl hx
    match x with
    | [] => exact hy
    | [a] =>
      cases y with
      | nil => rfl
      | cons y₀ yt =>
        cases yt with
        | nil => rfl
        | cons y₁ yt' =>
          have hy₀ : (y₀ == '_') = false := by
            simp only [List.head?, Option.map_some', Option.getD_some,
              Bool.or_eq_false_iff] at hyh
            exact hyh.2
          rw [List.cons_append, List.nil_append, hasWTok]
          simp [hy₀, hy]
    | [a, b] =>
      cases y with
      | nil => rfl
      | cons y₀ yt =>
        have hy₀d : y₀.isDigit = false := by
          simp only [List.head?, Option.map_some', Option.getD_some,
            Bool.or_eq_false_iff] at hyh
          exact hyh.1
        rw [show ([a, b] ++ (y₀ :: yt)) = a :: b :: y₀ :: yt from rfl, hasWTok]
        rw [show b :: y₀ :: yt = [b] ++ (y₀ :: yt) from rfl,
          ih [b] (by simp only [List.length_cons, List.length_nil] at hl ⊢; omega) rfl]
        simp [hy₀d]
    | a :: b :: c :: x'' =>
      have hx' : ((a == 'w' && b == '_' && c.isDigit) = false) ∧
          hasWTok (b :: c :: x'') = false := by
        rw [hasWTok] at hx
        exact ⟨(Bool.or_eq_false_iff.mp hx).1, (Bool.or_eq_false_iff.mp hx).2⟩
      rw [show ((a :: b :: c :: x'') ++ y) = a :: b :: c :: (x'' ++ y) from rfl, hasWTok]
      rw [show b :: c :: (x'' ++ y) = (b :: c :: x'') ++ y from rfl,
        ih (b :: c :: x'') (by simp only [List.length_cons] at hl ⊢; omega) hx'.2]
      simp [hx'.1]

theorem replaceFirstW_at_token (digs : List Char) (hne : digs ≠ [])
    (hdig : ∀ c ∈ digs, c.isDigit = true) (post : List Char) :
    replaceFirstW digs ('w' :: '_' :: (digs ++ '/' :: post)) =
      'w' :: '_' :: (digs ++ '/' :: post) := by
  obtain ⟨d, ds, rfl⟩ : ∃ d ds, digs = d :: ds := by
    match digs, hne with
    | d :: ds, _ => exact ⟨d, ds, rfl⟩
  rw [show 'w' :: '_' :: ((d :: ds) ++ '/' :: post) = 'w' :: '_' :: d :: (ds ++ '/' :: post)
      from rfl]
  rw [replaceFirstW, if_pos (by
    rw [hdig d (List.mem_cons_self d ds)]
    decide)]
  rw [show d :: (ds ++ '/' :: post) = (d :: ds) ++ '/' :: post from rfl,
    dropWhile_append_all Char.isDigit (d :: ds) _ hdig,
    List.dropWhile_cons, if_neg (by decide)]

theorem insert_then_replace (digs pre post : List Char) (hne : digs ≠ [])
    (hdig : ∀ c ∈ digs, c.isDigit = true) (hpre : hasWTok pre = false) :
    replaceFirstW digs (pre ++ uploadMark ++ transSeg ++ digs ++ '/' :: post) =
      pre ++ uploadMark ++ transSeg ++ digs ++ '/' :: post := by
  have hassoc : pre ++ uploadMark ++ transSeg ++ digs ++ '/' :: post =
      (pre ++ cutMark) ++ ('w' :: '_' :: (digs ++ '/' :: post)) := by
    rw [List.append_assoc pre cutMark, List.append_assoc, List.append_assoc,
      List.append_assoc]
    congr 1
  rw [hassoc,
    replaceFirstW_append digs ('w' :: '_' :: (digs ++ '/' :: post)) rfl
      (pre ++ cutMark) (hasWTok_append cutMark (by decide) (by decide) pre hpre),
    replaceFirstW_at_token digs hne hdig post]

theorem getOptimizedList_of_not_cloud (width : Nat) (l : List Char)
    (hc : containsSub cloudMark l = false) : getOptimizedList width l = l := by
  unfold getOptimizedList
  rw [if_pos hc]

theorem getOptimizedList_of_trans (width : Nat) (l : List Char)
    (hc : containsSub cloudMark l = true) (ht : containsSub transMark l = true) :
    getOptimizedList width l = replaceFirstW (digitChars width) l := by
  unfold getOptimizedList
  rw [if_neg (by simp [hc]), if_pos ht]

theorem getOptimizedList_of_none (width : Nat) (l : List Char)
    (hc : containsSub cloudMark l = true) (ht : containsSub transMark l = false)
    (hsp : splitFirst uploadMark l = none) : getOptimizedList width l = l := by
  unfold getOptimizedList
  rw [if_neg (by simp [hc]), if_neg (by simp [ht]), hsp]

theorem getOptimizedList_of_multi (width : Nat) (l pre post : List Char)
    (hc : containsSub cloudMark l = true) (ht : containsSub transMark l = false)
    (hsp : splitFirst uploadMark l = some (pre, post))
    (hpost : containsSub uploadMark post = true) : getOptimizedList width l = l := by
  unfold getOptimizedList
  rw [if_neg (by simp [hc]), if_neg (by simp [ht]), hsp]
  simp only [if_pos hpost]

theorem getOptimizedList_of_split (width : Nat) (l pre post : List Char)
    (hc : containsSub cloudMark l = true) (ht : containsSub transMark l = false)
    (hsp : splitFirst uploadMark l = some (pre, post))
    (hpost : containsSub uploadMark post = false) :
    getOptimizedList width l =
      pre ++ uploadMark ++ transSeg ++ digitChars width ++ '/' :: post := by
  unfold getOptimizedList
  rw [if_neg (by simp [hc]), if_neg (by simp [ht]), hsp]
  simp only [hpost]
  rfl

theorem getOptimizedList_idem (width : Nat) (l : List Char)
    (h : noWidthTokenBeforeUpload l = true) :
    getOptimizedList width (getOptimizedList width l) = getOptimizedList width l := by
  have hne := digitChars_ne_nil width
  have hdig := digitChars_digits width
  by_cases hc : containsSub cloudMark l = true
  case neg =>
    have hc' : containsSub cloudMark l = false := Bool.eq_false_iff.mpr hc
    rw [getOptimizedList_of_not_cloud width l hc', getOptimizedList_of_not_cloud width l hc']
  case pos =>
    by_cases ht : containsSub transMark l = true
    · rw [getOptimizedList_of_trans width l hc ht]
      by_cases hcv : containsSub cloudMark (replaceFirstW (digitChars width) l) = true
      · rw [getOptimizedList_of_trans width _ hcv
          (replaceFirstW_preserves_transMark _ l ht)]
        exact replaceFirstW_idem _ hne hdig l
      · rw [getOptimizedList_of_not_cloud width _ (Bool.eq_false_iff.mpr hcv)]
    · have ht' : containsSub transMark l = false := Bool.eq_false_iff.mpr ht
      match hsp : splitFirst uploadMark l with
      | none =>
        rw [getOptimizedList_of_none width l hc ht' hsp,
          getOptimizedList_of_none width l hc ht' hsp]
      | some (pre, post) =>
        by_cases hpost : containsSub uploadMark post = true
        · rw [getOptimizedList_of_multi width l pre post hc ht' hsp hpost,
            getOptimizedList_of_multi width l pre post hc ht' hsp hpost]
        · have hpost' : containsSub uploadMark post = false := Bool.eq_false_iff.mpr hpost
          rw [getOptimizedList_of_split width l pre post hc ht' hsp hpost']
          by_cases hcv : containsSub cloudMark
              (pre ++ uploadMark ++ transSeg ++ digitChars width ++ '/' :: post) = true
          · have htv : containsSub transMark
                (pre ++ uploadMark ++ transSeg ++ digitChars width ++ '/' :: post) = true := by
              rw [show pre ++ uploadMark ++ transSeg ++ digitChars width ++ '/' :: post =
                  pre ++ (transMark ++
                    (',' :: 'w' :: '_' :: (digitChars width ++ '/' :: post))) from by
                rw [List.append_assoc, List.append_assoc, List.append_assoc]
                congr 1]
              exact containsSub_middle transMark pre _ (by decide)
            have hpre : hasWTok pre = false := by
              unfold noWidthTokenBeforeUpload at h
              rw [hsp] at h
              simpa using h
            rw [getOptimizedList_of_trans width _ hcv htv]
            exact insert_then_replace (digitChars width) pre post hne hdig hpre
          · rw [getOptimizedList_of_not_cloud width _ (Bool.eq_false_iff.mpr hcv)]

/-- **C5** (amended): `getOptimizedImageUrl` is idempotent on every URL with
no width token `w_<digits>` before its first `'/upload/'` marker — in
particular on every canonical Cloudinary delivery URL, whose prefix before
`'/upload/'` is host and path segments without width tokens.  Without that
restriction idempotence fails (see the counterexample): the second
application rewrites a pre-existing width token in the URL prefix instead of
the inserted one. -/
theorem delivery_url_idempotent (url : String) (width : Nat)
    (h : noWidthTokenBeforeUpload url.data = true) :
    getOptimizedImageUrl (getOptimizedImageUrl url width) width =
      getOptimizedImageUrl url width := by
  unfold getOptimizedImageUrl
  exact congrArg String.mk (getOptimizedList_idem width url.data h)

/-- Witness for `delivery_url_idempotent` on a canonical delivery URL. -/
theorem delivery_url_idempotent_witness :
    getOptimizedImageUrl
        (getOptimizedImageUrl ("https://res.cloudinary.com/demo/image/upload/sample.jpg") 400)
        400 =
      getOptimizedImageUrl ("https://res.cloudinary.com/demo/image/upload/sample.jpg") 400 :=
  delivery_url_idempotent ("https://res.cloudinary.com/demo/image/upload/sample.jpg") 400
    (by decide)

end WebGallery

